import Mathlib

/-!
Verification development for the claim fact-checking pipeline
(`src/utils/wikipedia_scraper.py`, `src/utils/claims.py`,
`src/utils/factcheck.py`, `src/utils/google_custom_search.py`,
`src/utils/local_openai_client.py`, `src/main_local.py`).

Python strings are modelled as `String`/`List Char` (sequences of Unicode
code points), bytes as `Nat` below 256.  Network calls, the language-model
gateway and the HTML parser (BeautifulSoup) are external collaborators and
are modelled as oracle parameters of type `Except Unit _` (`.error` is a
raised exception at the call site, `.ok` a returned value).
-/

namespace TruthMachine

/-! ### urllib.parse.quote / unquote

`quote(s, safe='/')` encodes the UTF-8 bytes of every character outside
`ALWAYS_SAFE ∪ {'/'}` as uppercase `%XX` escapes.  `unquote` turns maximal
runs of `%XX` escapes back into bytes and UTF-8-decodes them (here the
decoding is done incrementally, byte-group by byte-group, which agrees with
CPython's run-at-a-time decoding on all well-formed escapes; on malformed
UTF-8 CPython substitutes U+FFFD per run, we substitute per byte). -/

/-- Value of a hexadecimal digit character, upper or lower case
(CPython `_hextobyte` accepts both cases). -/
def hexVal (c : Char) : Option Nat :=
  let n := c.toNat
  if 48 ≤ n ∧ n ≤ 57 then some (n - 48)
  else if 65 ≤ n ∧ n ≤ 70 then some (n - 55)
  else if 97 ≤ n ∧ n ≤ 102 then some (n - 87)
  else none

/-- Uppercase hexadecimal digit for a value below 16 (CPython quoting uses
uppercase escapes). -/
def hexDigitUpper (n : Nat) : Char :=
  if n < 10 then Char.ofNat ('0'.toNat + n) else Char.ofNat ('A'.toNat + (n - 10))

/-- UTF-8 encoding of a code point, as a list of bytes. -/
def utf8EncodeCp (n : Nat) : List Nat :=
  if n < 0x80 then [n]
  else if n < 0x800 then [0xC0 + n / 0x40, 0x80 + n % 0x40]
  else if n < 0x10000 then
    [0xE0 + n / 0x1000, 0x80 + (n / 0x40) % 0x40, 0x80 + n % 0x40]
  else
    [0xF0 + n / 0x40000, 0x80 + (n / 0x1000) % 0x40, 0x80 + (n / 0x40) % 0x40,
      0x80 + n % 0x40]

/-- Characters never quoted: ASCII letters, digits and `_.-~`
(CPython `_ALWAYS_SAFE`). -/
def alwaysSafeChar (c : Char) : Bool :=
  c.isAlphanum || c = '_' || c = '.' || c = '-' || c = '~'

/-- Safe set of `quote` with its default argument `safe='/'`. -/
def safeChar (c : Char) : Bool :=
  alwaysSafeChar c || c = '/'

/-- Percent-escape of one byte: `%XX` with uppercase hex digits. -/
def escByte (b : Nat) : List Char :=
  ['%', hexDigitUpper (b / 16), hexDigitUpper (b % 16)]

/-- Quoting of a single character: safe characters pass through, all others
are escaped byte-by-byte. -/
def quoteChar (c : Char) : List Char :=
  if safeChar c then [c] else (utf8EncodeCp c.toNat).flatMap escByte

/-- `urllib.parse.quote` with the default `safe='/'`, on character lists. -/
def quoteList (l : List Char) : List Char :=
  l.flatMap quoteChar

/-- `urllib.parse.quote` with the default `safe='/'`. -/
def pyQuote (s : String) : String :=
  String.mk (quoteList s.data)

/-- Lexing pass of `unquote`: each `%XX` escape becomes a byte
(`Sum.inl`), every other character stays literal (`Sum.inr`).  A `%` not
followed by two hex digits is kept literal, and scanning continues right
after it, exactly as CPython's split-on-`%` loop does. -/
def tokenize : List Char → List (Nat ⊕ Char)
  | [] => []
  | '%' :: h1 :: h2 :: rest =>
    match hexVal h1, hexVal h2 with
    | some a, some b => Sum.inl (a * 16 + b) :: tokenize rest
    | _, _ => Sum.inr '%' :: tokenize (h1 :: h2 :: rest)
  | c :: rest => Sum.inr c :: tokenize rest

/-- Replacement character emitted for malformed UTF-8 (`errors='replace'`). -/
def replChar : Char := '�'

/-- Decoding pass of `unquote`: literal characters pass through, byte
tokens are UTF-8-decoded.  Incomplete or stray byte sequences give the
replacement character (they never occur in well-formed escapes).  The
available byte lookahead is dispatched first, the lead-byte ranges
second. -/
def detok : List (Nat ⊕ Char) → List Char
  | [] => []
  | Sum.inr c :: rest => c :: detok rest
  | Sum.inl b1 :: Sum.inl b2 :: Sum.inl b3 :: Sum.inl b4 :: rest =>
    if b1 < 0x80 then
      Char.ofNat b1 :: detok (Sum.inl b2 :: Sum.inl b3 :: Sum.inl b4 :: rest)
    else if b1 < 0xC0 then
      replChar :: detok (Sum.inl b2 :: Sum.inl b3 :: Sum.inl b4 :: rest)
    else if b1 < 0xE0 then
      Char.ofNat ((b1 - 0xC0) * 0x40 + (b2 - 0x80)) ::
        detok (Sum.inl b3 :: Sum.inl b4 :: rest)
    else if b1 < 0xF0 then
      Char.ofNat ((b1 - 0xE0) * 0x1000 + (b2 - 0x80) * 0x40 + (b3 - 0x80)) ::
        detok (Sum.inl b4 :: rest)
    else
      Char.ofNat ((b1 - 0xF0) * 0x40000 + (b2 - 0x80) * 0x1000 +
        (b3 - 0x80) * 0x40 + (b4 - 0x80)) :: detok rest
  | Sum.inl b1 :: Sum.inl b2 :: Sum.inl b3 :: Sum.inr c :: rest =>
    if b1 < 0x80 then
      Char.ofNat b1 :: detok (Sum.inl b2 :: Sum.inl b3 :: Sum.inr c :: rest)
    else if b1 < 0xC0 then
      replChar :: detok (Sum.inl b2 :: Sum.inl b3 :: Sum.inr c :: rest)
    else if b1 < 0xE0 then
      Char.ofNat ((b1 - 0xC0) * 0x40 + (b2 - 0x80)) ::
        detok (Sum.inl b3 :: Sum.inr c :: rest)
    else if b1 < 0xF0 then
      Char.ofNat ((b1 - 0xE0) * 0x1000 + (b2 - 0x80) * 0x40 + (b3 - 0x80)) ::
        detok (Sum.inr c :: rest)
    else replChar :: c :: detok rest
  | [Sum.inl b1, Sum.inl b2, Sum.inl b3] =>
    if b1 < 0x80 then Char.ofNat b1 :: detok [Sum.inl b2, Sum.inl b3]
    else if b1 < 0xC0 then replChar :: detok [Sum.inl b2, Sum.inl b3]
    else if b1 < 0xE0 then
      Char.ofNat ((b1 - 0xC0) * 0x40 + (b2 - 0x80)) :: detok [Sum.inl b3]
    else if b1 < 0xF0 then
      [Char.ofNat ((b1 - 0xE0) * 0x1000 + (b2 - 0x80) * 0x40 + (b3 - 0x80))]
    else [replChar]
  | Sum.inl b1 :: Sum.inl b2 :: Sum.inr c :: rest =>
    if b1 < 0x80 then Char.ofNat b1 :: detok (Sum.inl b2 :: Sum.inr c :: rest)
    else if b1 < 0xC0 then replChar :: detok (Sum.inl b2 :: Sum.inr c :: rest)
    else if b1 < 0xE0 then
      Char.ofNat ((b1 - 0xC0) * 0x40 + (b2 - 0x80)) :: detok (Sum.inr c :: rest)
    else replChar :: c :: detok rest
  | [Sum.inl b1, Sum.inl b2] =>
    if b1 < 0x80 then Char.ofNat b1 :: detok [Sum.inl b2]
    else if b1 < 0xC0 then replChar :: detok [Sum.inl b2]
    else if b1 < 0xE0 then [Char.ofNat ((b1 - 0xC0) * 0x40 + (b2 - 0x80))]
    else [replChar]
  | Sum.inl b1 :: Sum.inr c :: rest =>
    if b1 < 0x80 then Char.ofNat b1 :: detok (Sum.inr c :: rest)
    else if b1 < 0xC0 then replChar :: detok (Sum.inr c :: rest)
    else replChar :: c :: detok rest
  | [Sum.inl b1] =>
    if b1 < 0x80 then [Char.ofNat b1] else [replChar]

/-- `urllib.parse.unquote` (default `encoding='utf-8'`, `errors='replace'`)
on character lists. -/
def unquoteList (l : List Char) : List Char :=
  detok (tokenize l)

/-- Whitespace set of Python `str.strip()` restricted to ASCII
(`' \t\n\r\x0b\x0c'`; the further Unicode space characters never occur in
the claims below). -/
def pySpaceChar (c : Char) : Bool :=
  c = ' ' || c = '\t' || c = '\n' || c = '\r' || c = '\x0b' || c = '\x0c'

/-- Python `str.strip()` with no argument. -/
def pyStrip (l : List Char) : List Char :=
  ((l.dropWhile pySpaceChar).reverse.dropWhile pySpaceChar).reverse

/-! ### urllib.parse.urlparse

Embedding of CPython's `urlsplit`/`urlparse` for the pieces the scraper
reads (`netloc` and `path`).  Bracketed (IPv6) hosts make `urlsplit`
validate the host and possibly raise; none of the URLs in the claims use
them, so any bracket in the netloc is conservatively modelled as a raised
`ValueError` (`none`).  The NFKC normalization check `_checknetloc`
performs on non-ASCII netlocs is omitted. -/

/-- Characters allowed after the first character of a scheme
(CPython `scheme_chars`). -/
def isSchemeTailChar (c : Char) : Bool :=
  c.isAlphanum || c = '+' || c = '-' || c = '.'

/-- Split a list at the first `':'`; `none` when there is no colon. -/
def takeUntilColon : List Char → List Char × Option (List Char)
  | [] => ([], none)
  | c :: rest =>
    if c = ':' then ([], some rest)
    else
      let p := takeUntilColon rest
      (c :: p.1, p.2)

/-- Scheme detection of `urlsplit`: a nonempty alphabetic-initial prefix of
scheme characters before the first `':'` is removed (and lowercased);
otherwise the URL is left untouched. -/
def splitScheme (url : List Char) : List Char × List Char :=
  match takeUntilColon url with
  | (pre, some rest) =>
    if pre ≠ [] ∧ pre.headI.isAlpha ∧ pre.tail.all isSchemeTailChar then
      (pre.map Char.toLower, rest)
    else ([], url)
  | (_, none) => ([], url)

/-- Delimiters that terminate the network location. -/
def isNetlocDelim (c : Char) : Bool :=
  c = '/' || c = '?' || c = '#'

/-- CPython `_splitnetloc`: after a leading `//`, the netloc extends to the
next `/`, `?` or `#`. -/
def splitNetloc : List Char → List Char × List Char
  | '/' :: '/' :: rest =>
    (rest.takeWhile (fun c => !isNetlocDelim c), rest.dropWhile (fun c => !isNetlocDelim c))
  | l => ([], l)

/-- Split a list at the first occurrence of `sep`; `none` when absent. -/
def splitAtFirstChar (sep : Char) : List Char → List Char × Option (List Char)
  | [] => ([], none)
  | c :: rest =>
    if c = sep then ([], some rest)
    else
      let p := splitAtFirstChar sep rest
      (c :: p.1, p.2)

/-- Result record of `urlsplit`/`urlparse` restricted to the fields the
scraper reads (plus the ones needed to compute them). -/
structure SplitResult where
  scheme : List Char
  netloc : List Char
  path : List Char
  query : List Char
  fragment : List Char
deriving DecidableEq

/-- CPython `urlsplit` (with `allow_fragments=True`): sanitize, split off
scheme, netloc, fragment and query.  `none` models a raised `ValueError`. -/
def pyUrlsplit (url0 : List Char) : Option SplitResult :=
  let url1 := url0.dropWhile (fun c => c.toNat ≤ 0x20)
  let url2 := url1.filter fun c => !(c = '\t' || c = '\r' || c = '\n')
  let s := splitScheme url2
  let nl := splitNetloc s.2
  if '[' ∈ nl.1 ∨ ']' ∈ nl.1 then none
  else
    let f := splitAtFirstChar '#' nl.2
    let q := splitAtFirstChar '?' f.1
    some ⟨s.1, nl.1, q.1, q.2.getD [], f.2.getD []⟩

/-- Schemes for which `urlparse` separates `;parameters` from the path
(CPython `uses_params`, restricted to nonempty members plus the empty
scheme). -/
def usesParams (scheme : List Char) : Bool :=
  let l : List (List Char) :=
    [[], "ftp".data, "hdl".data, "prospero".data, "http".data, "imap".data,
      "https".data, "shttp".data, "rtsp".data, "rtspu".data, "sip".data,
      "sips".data, "mms".data, "sftp".data, "tel".data]
  scheme ∈ l

/-- CPython `_splitparams`, keeping only the path part: parameters start at
the first `';'` after the last `'/'` (or anywhere when there is no `'/'`). -/
def pySplitParams (path : List Char) : List Char :=
  if '/' ∈ path then
    let afterLast := (path.reverse.takeWhile (fun c => c ≠ '/')).reverse
    let pre := path.take (path.length - afterLast.length)
    if ';' ∈ afterLast then pre ++ afterLast.takeWhile (fun c => c ≠ ';') else path
  else path.takeWhile (fun c => c ≠ ';')

/-- CPython `urlparse`: `urlsplit` plus parameter separation on the path. -/
def pyUrlparse (url : List Char) : Option SplitResult :=
  match pyUrlsplit url with
  | none => none
  | some r =>
    if usesParams r.scheme ∧ ';' ∈ r.path then
      some { r with path := pySplitParams r.path }
    else some r

/-- Python `str.split(sep)` for a one-character separator: empty parts are
kept and splitting the empty string gives `[[]]`. -/
def splitOnChar (sep : Char) : List Char → List (List Char)
  | [] => [[]]
  | c :: rest =>
    let r := splitOnChar sep rest
    if c = sep then [] :: r
    else (c :: r.headI) :: r.tail

/-- Reference-encyclopedia domain tested (as a substring) against the
netloc. -/
def wikiDomain : List Char := "wikipedia.org".data

/-- `_extract_title_from_wiki_url` (`src/utils/wikipedia_scraper.py`):
accept any URL whose netloc contains `wikipedia.org` as a substring and
whose path splits as `/wiki/<title>/...`, returning the percent-decoded
second path segment. -/
def _extract_title_from_wiki_url (url : String) : Option String :=
  match pyUrlparse url.data with
  | none => none
  | some p =>
    if wikiDomain <:+: p.netloc then
      match splitOnChar '/' p.path with
      | _ :: p1 :: p2 :: _ =>
        if p1 = "wiki".data then some (String.mk (unquoteList p2)) else none
      | _ => none
    else none

/-! ### TextRetriever: `scrape_wikipedia_content` and its tiers

The three tiers issue HTTP requests and (for the HTML tiers) run
BeautifulSoup; those collaborator outcomes are supplied by a `ScrapeEnv`.
To reason about which tiers run, the embedded scraper also returns the
ordered list of tiers it invoked. -/

/-- Retrieval tiers of the scraper, in their preference order. -/
inductive Tier where
  | plain
  | mobile
  | generic
deriving DecidableEq

/-- Collaborator outcomes for one retrieval: the plain-text REST response
(status code and body, or a transport error), and the results of the two
HTML tiers, whose GET + DOM-cleanup pipelines are external
(`.error` models a raised exception, `.ok none` an empty result). -/
structure ScrapeEnv where
  plainResp : String → Except Unit (Nat × String)
  mobileResult : String → Except Unit (Option String)
  genericResult : String → Except Unit (Option String)

/-- `_wiki_rest_plain_text`: issue the GET (a transport error propagates to
the caller); on a 200 response whose body is nonempty after stripping,
return the body verbatim (untrimmed), otherwise `None`. -/
def _wiki_rest_plain_text (resp : Except Unit (Nat × String)) :
    Except Unit (Option String) :=
  match resp with
  | .error e => .error e
  | .ok (status, body) =>
    .ok (if status = 200 ∧ pyStrip body.data ≠ [] then some body else none)

/-- `scrape_wikipedia_content`: extract a title; when one is present (and
truthy) try the plain-text tier, then the mobile-HTML tier, swallowing
their exceptions; finally (or directly, when no title) run the generic
scrape, converting any of its exceptions to `None`.  The `time.sleep(0.4)`
backoff has no observable effect here.  The second component records the
tiers invoked, in order. -/
def scrape_wikipedia_content (env : ScrapeEnv) (url : String) :
    Option String × List Tier :=
  let genericStep : List Tier → Option String × List Tier := fun pre =>
    match env.genericResult url with
    | .ok r => (r, pre ++ [Tier.generic])
    | .error _ => (none, pre ++ [Tier.generic])
  let mobileStep : String → Option String × List Tier := fun title =>
    match env.mobileResult title with
    | .ok (some txt) =>
      if txt = "" then genericStep [Tier.plain, Tier.mobile]
      else (some txt, [Tier.plain, Tier.mobile])
    | _ => genericStep [Tier.plain, Tier.mobile]
  match _extract_title_from_wiki_url url with
  | some title =>
    if title = "" then genericStep []
    else
      match _wiki_rest_plain_text (env.plainResp title) with
      | .ok (some txt) =>
        if txt = "" then mobileStep title else (some txt, [Tier.plain])
      | _ => mobileStep title
  | none => genericStep []

/-! ### Pipeline stage functions

The language-model gateway and the JSON parsers/validators (pydantic,
`json.loads`) are collaborators: a gateway call is an
`Except Unit (Option String)` (`.error` = exception raised, `.ok none` =
response without `output_text`), and each parser is an oracle function
returning `none` on a parse/validation failure. -/

/-- Verdict record (`ClaimResult` in `src/utils/models.py`). -/
structure ClaimResult where
  label : String
  evidence : String
deriving DecidableEq

/-- `extract_claims_from_query` (`src/utils/claims.py`): empty list on a
raised exception, an absent/empty response, or a validation failure. -/
def extract_claims_from_query (gw : Except Unit (Option String))
    (parse : String → Option (List String)) : List String :=
  match gw with
  | .error _ => []
  | .ok none => []
  | .ok (some raw) =>
    if raw = "" then []
    else
      match parse raw with
      | some claims => claims
      | none => []

/-- `optimize_claim` (`src/utils/claims.py`): the original claim on a
raised exception, otherwise `output_text or ""`. -/
def optimize_claim (gw : Except Unit (Option String)) (claim : String) : String :=
  match gw with
  | .error _ => claim
  | .ok none => ""
  | .ok (some s) => s

/-- `LocalOpenAIClient.optimize_claim`
(`src/utils/local_openai_client.py`): `_make_request` returns `none` on any
failure, and a falsy (absent or empty) response falls back to the original
claim. -/
def local_optimize_claim (resp : Option String) (claim : String) : String :=
  match resp with
  | none => claim
  | some s => if s = "" then claim else s

/-- `get_query_for_wiki_article` (`src/utils/claims.py`): empty string on a
raised exception, otherwise `output_text or ""`. -/
def get_query_for_wiki_article (gw : Except Unit (Option String)) : String :=
  match gw with
  | .error _ => ""
  | .ok none => ""
  | .ok (some s) => s

/-- `get_first_n_results_urls` (`src/utils/google_custom_search.py`): the
search collaborator's ranked items are modelled by their optional `link`
fields; any raised exception gives `none`, an empty link list gives `none`,
otherwise the first `n` links. -/
def get_first_n_results_urls (resp : Except Unit (List (Option String)))
    (n : Nat) : Option (List String) :=
  match resp with
  | .error _ => none
  | .ok items =>
    let urls := items.filterMap id
    if urls = [] then none else some (urls.take n)

/-- `find_answer_in_article` (`src/utils/factcheck.py`): `None` on a raised
exception or a falsy response; on a response that fails strict JSON
validation, a fallback verdict wrapping the raw text with label
`"False"`. -/
def find_answer_in_article (gw : Except Unit (Option String))
    (parse : String → Option ClaimResult) : Option ClaimResult :=
  match gw with
  | .error _ => none
  | .ok none => none
  | .ok (some text) =>
    if text = "" then none
    else
      match parse text with
      | some cr => some cr
      | none => some ⟨"False", text⟩

/-- `build_text_fragment_link` (`src/utils/factcheck.py` and
`src/utils/local_factcheck_full.py`): the bare URL for falsy evidence,
otherwise the URL with a percent-encoded text-fragment anchor. -/
def build_text_fragment_link (url : String) (evidence : Option String) : String :=
  match evidence with
  | none => url
  | some e => if e = "" then url else url ++ "#:~:text=" ++ pyQuote e

/-! ### Orchestrator (`src/main_local.py`)

`process_single_claim` is the per-claim worker; an unexpected exception
escaping it is modelled by letting the worker be an arbitrary
`Except Unit R` valued function.  `process_query_parallel` collects
`future.result()` in completion order — a permutation of the claim list —
and its `except` branch only logs, so a failed worker contributes nothing.
The sequential loop calls the worker directly, so a raise propagates.
Wall-clock timing fields are not modelled. -/

/-- Fan-in of `process_query_parallel`: results of non-raising workers in
completion order, raised workers dropped (logged only). -/
def parallelResults {R : Type} (worker : String → Except Unit R)
    (completionOrder : List String) : List R :=
  completionOrder.filterMap fun c =>
    match worker c with
    | .ok r => some r
    | .error _ => none

/-- Claim loop of `process_query_sequential`: workers run in input order
and a raise propagates (`.error`). -/
def sequentialResults {R : Type} (worker : String → Except Unit R)
    (claims : List String) : Except Unit (List R) :=
  claims.mapM worker

/-! ### Helper lemmas -/

theorem char_toNat_lt (c : Char) : c.toNat < 0x110000 := by
  have h := c.valid
  rcases h with h | ⟨h1, h2⟩ <;> simp [Char.toNat] <;> omega

theorem utf8EncodeCp_lt (n : Nat) (h : n < 0x110000) :
    ∀ b ∈ utf8EncodeCp n, b < 256 := by
  intro b hb
  unfold utf8EncodeCp at hb
  split at hb
  · simp at hb; omega
  · split at hb
    · simp at hb; rcases hb with hb | hb <;> omega
    · split at hb
      · simp at hb; rcases hb with hb | hb | hb <;> omega
      · simp at hb; rcases hb with hb | hb | hb | hb <;> omega

theorem hexDigitUpper_safe (n : Nat) (h : n < 16) :
    safeChar (hexDigitUpper n) = true := by
  interval_cases n <;> decide

theorem quoteList_chars_safe (l : List Char) :
    ∀ c ∈ quoteList l, safeChar c = true ∨ c = '%' := by
  intro c hc
  simp only [quoteList, List.mem_flatMap] at hc
  obtain ⟨d, _, hcd⟩ := hc
  unfold quoteChar at hcd
  by_cases hs : safeChar d
  · rw [if_pos hs] at hcd
    simp at hcd
    subst hcd
    exact .inl hs
  · rw [if_neg hs] at hcd
    simp only [List.mem_flatMap] at hcd
    obtain ⟨b, hb, hcb⟩ := hcd
    have hblt : b < 256 := utf8EncodeCp_lt d.toNat (char_toNat_lt d) b hb
    unfold escByte at hcb
    simp at hcb
    rcases hcb with hcb | hcb | hcb
    · exact .inr hcb
    · subst hcb; exact .inl (hexDigitUpper_safe _ (by omega))
    · subst hcb; exact .inl (hexDigitUpper_safe _ (by omega))

theorem length_filterMap_eq_length_filter {α β : Type} (f : α → Option β)
    (l : List α) :
    (l.filterMap f).length = (l.filter (fun x => (f x).isSome)).length := by
  induction l with
  | nil => rfl
  | cons a t ih =>
    by_cases h : (f a).isSome
    · rcases Option.isSome_iff_exists.mp h with ⟨b, hb⟩
      simp [List.filterMap_cons, hb, List.filter_cons, h, ih]
    · simp only [Option.not_isSome_iff_eq_none] at h
      simp [List.filterMap_cons, h, List.filter_cons, ih]

theorem parallelResults_eq_filterMap {R : Type} (worker : String → Except Unit R)
    (order : List String) :
    parallelResults worker order =
      order.filterMap fun c => (worker c).toOption := by
  unfold parallelResults
  congr 1
  funext c
  cases worker c <;> rfl

theorem sequentialResults_all_ok {R : Type} (worker : String → Except Unit R)
    (claims : List String) (h : ∀ c ∈ claims, ∃ r, worker c = .ok r) :
    sequentialResults worker claims =
      Except.ok (claims.filterMap fun c => (worker c).toOption) := by
  induction claims with
  | nil => rfl
  | cons a t ih =>
    obtain ⟨r, hr⟩ := h a (by simp)
    have ht := ih (fun c hc => h c (by simp [hc]))
    unfold sequentialResults at ht ⊢
    rw [List.mapM_cons, hr, ht]
    simp only [List.filterMap_cons, hr, Except.toOption]
    rfl

theorem takeWhile_append_stop (p : Char → Bool) (a : List Char) (d : Char)
    (b : List Char) (ha : ∀ c ∈ a, p c = true) (hd : p d = false) :
    (a ++ d :: b).takeWhile p = a ∧ (a ++ d :: b).dropWhile p = d :: b := by
  induction a with
  | nil => simp [List.takeWhile_cons, List.dropWhile_cons, hd]
  | cons c cs ih =>
    have hc : p c = true := ha c (by simp)
    have ih2 := ih (fun x hx => ha x (by simp [hx]))
    simp [List.takeWhile_cons, List.dropWhile_cons, hc, ih2.1, ih2.2]

theorem splitAtFirstChar_of_not_mem (sep : Char) (l : List Char)
    (h : ∀ c ∈ l, c ≠ sep) :
    splitAtFirstChar sep l = (l, none) := by
  induction l with
  | nil => rfl
  | cons c cs ih =>
    have hc : c ≠ sep := h c (by simp)
    have ih2 := ih (fun x hx => h x (by simp [hx]))
    simp [splitAtFirstChar, hc, ih2]

theorem takeUntilColon_app (a b : List Char) (ha : ∀ c ∈ a, c ≠ ':') :
    takeUntilColon (a ++ ':' :: b) = (a, some b) := by
  induction a with
  | nil => simp [takeUntilColon]
  | cons c cs ih =>
    have hc : c ≠ ':' := ha c (by simp)
    have ih2 := ih (fun x hx => ha x (by simp [hx]))
    simp [takeUntilColon, hc, ih2]

theorem splitScheme_https (rest : List Char) :
    splitScheme ('h' :: 't' :: 't' :: 'p' :: 's' :: ':' :: rest) =
      ("https".data, rest) := by
  have h : takeUntilColon ('h' :: 't' :: 't' :: 'p' :: 's' :: ':' :: rest) =
      ("https".data, some rest) :=
    takeUntilColon_app "https".data rest (by decide)
  simp [splitScheme, h]
  decide

theorem splitNetloc_app (netloc rest : List Char)
    (h : ∀ c ∈ netloc, isNetlocDelim c = false) :
    splitNetloc ('/' :: '/' :: (netloc ++ '/' :: rest)) = (netloc, '/' :: rest) := by
  have hs := takeWhile_append_stop (fun c => !isNetlocDelim c) netloc '/' rest
    (by intro c hc; simp [h c hc]) (by decide)
  simp [splitNetloc, hs.1, hs.2]

theorem splitOnChar_app_sep (sep : Char) (a b : List Char)
    (ha : ∀ c ∈ a, c ≠ sep) :
    splitOnChar sep (a ++ sep :: b) = a :: splitOnChar sep b := by
  induction a with
  | nil => simp [splitOnChar]
  | cons c cs ih =>
    have hc : c ≠ sep := ha c (by simp)
    have ih2 := ih (fun x hx => ha x (by simp [hx]))
    simp [splitOnChar, hc, ih2]

theorem splitOnChar_cons_sep (sep : Char) (l : List Char) :
    splitOnChar sep (sep :: l) = [] :: splitOnChar sep l := by
  simp [splitOnChar]

theorem splitOnChar_of_not_mem (sep : Char) (l : List Char)
    (h : ∀ c ∈ l, c ≠ sep) :
    splitOnChar sep l = [l] := by
  induction l with
  | nil => rfl
  | cons c cs ih =>
    have hc : c ≠ sep := h c (by simp)
    have ih2 := ih (fun x hx => h x (by simp [hx]))
    simp [splitOnChar, hc, ih2]

theorem filter_clean (l : List Char)
    (h : ∀ c ∈ l, c ≠ '\t' ∧ c ≠ '\r' ∧ c ≠ '\n') :
    l.filter (fun c => !(c = '\t' || c = '\r' || c = '\n')) = l :=
  List.filter_eq_self.mpr (by
    intro c hc
    obtain ⟨h1, h2, h3⟩ := h c hc
    simp [h1, h2, h3])

theorem pyUrlsplit_wiki (netloc T : List Char)
    (hn : ∀ c ∈ netloc, isNetlocDelim c = false ∧ c ≠ '[' ∧ c ≠ ']' ∧
      c ≠ '\t' ∧ c ≠ '\r' ∧ c ≠ '\n')
    (ht : ∀ c ∈ T, c ≠ '#' ∧ c ≠ '?' ∧ c ≠ '\t' ∧ c ≠ '\r' ∧ c ≠ '\n') :
    pyUrlsplit ('h' :: 't' :: 't' :: 'p' :: 's' :: ':' :: '/' :: '/' ::
        (netloc ++ '/' :: 'w' :: 'i' :: 'k' :: 'i' :: '/' :: T)) =
      some ⟨"https".data, netloc, '/' :: 'w' :: 'i' :: 'k' :: 'i' :: '/' :: T,
        [], []⟩ := by
  have hclean : ∀ c ∈ ('h' :: 't' :: 't' :: 'p' :: 's' :: ':' :: '/' :: '/' ::
      (netloc ++ '/' :: 'w' :: 'i' :: 'k' :: 'i' :: '/' :: T)),
      c ≠ '\t' ∧ c ≠ '\r' ∧ c ≠ '\n' := by
    intro c hc
    simp only [List.mem_cons, List.mem_append] at hc
    rcases hc with rfl | rfl | rfl | rfl | rfl | rfl | rfl | rfl | hc | hc
    · decide
    · decide
    · decide
    · decide
    · decide
    · decide
    · decide
    · decide
    · obtain ⟨-, -, -, h4, h5, h6⟩ := hn c hc
      exact ⟨h4, h5, h6⟩
    · rcases hc with rfl | rfl | rfl | rfl | rfl | rfl | hc
      · decide
      · decide
      · decide
      · decide
      · decide
      · decide
      · obtain ⟨-, -, h3, h4, h5⟩ := ht c hc
        exact ⟨h3, h4, h5⟩
  have hpath : ∀ c ∈ ('/' :: 'w' :: 'i' :: 'k' :: 'i' :: '/' :: T),
      c ≠ '#' ∧ c ≠ '?' := by
    intro c hc
    simp only [List.mem_cons] at hc
    rcases hc with rfl | rfl | rfl | rfl | rfl | rfl | hc
    · decide
    · decide
    · decide
    · decide
    · decide
    · decide
    · obtain ⟨h1, h2, -, -, -⟩ := ht c hc
      exact ⟨h1, h2⟩
  have hdelim : ∀ c ∈ netloc, isNetlocDelim c = false := fun c hc => (hn c hc).1
  have hbr : ¬('[' ∈ netloc ∨ ']' ∈ netloc) := by
    rintro (h | h)
    · exact (hn _ h).2.1 rfl
    · exact (hn _ h).2.2.1 rfl
  unfold pyUrlsplit
  dsimp only []
  rw [List.dropWhile_cons_of_neg (by decide)]
  rw [filter_clean _ hclean]
  rw [splitScheme_https]
  dsimp only []
  rw [splitNetloc_app _ _ hdelim]
  dsimp only []
  rw [if_neg hbr]
  rw [splitAtFirstChar_of_not_mem _ _ (fun c hc => (hpath c hc).1)]
  dsimp only []
  rw [splitAtFirstChar_of_not_mem _ _ (fun c hc => (hpath c hc).2)]
  rfl

theorem pyUrlparse_wiki (netloc T : List Char)
    (hn : ∀ c ∈ netloc, isNetlocDelim c = false ∧ c ≠ '[' ∧ c ≠ ']' ∧
      c ≠ '\t' ∧ c ≠ '\r' ∧ c ≠ '\n')
    (ht : ∀ c ∈ T, c ≠ '#' ∧ c ≠ '?' ∧ c ≠ ';' ∧ c ≠ '\t' ∧ c ≠ '\r' ∧ c ≠ '\n') :
    pyUrlparse ('h' :: 't' :: 't' :: 'p' :: 's' :: ':' :: '/' :: '/' ::
        (netloc ++ '/' :: 'w' :: 'i' :: 'k' :: 'i' :: '/' :: T)) =
      some ⟨"https".data, netloc, '/' :: 'w' :: 'i' :: 'k' :: 'i' :: '/' :: T,
        [], []⟩ := by
  have ht2 : ∀ c ∈ T, c ≠ '#' ∧ c ≠ '?' ∧ c ≠ '\t' ∧ c ≠ '\r' ∧ c ≠ '\n' := by
    intro c hc
    obtain ⟨h1, h2, -, h4, h5, h6⟩ := ht c hc
    exact ⟨h1, h2, h4, h5, h6⟩
  have hsemi : ¬(usesParams ("https".data) = true ∧
      ';' ∈ ('/' :: 'w' :: 'i' :: 'k' :: 'i' :: '/' :: T)) := by
    rintro ⟨-, hmem⟩
    simp only [List.mem_cons] at hmem
    rcases hmem with h | h | h | h | h | h | h
    · exact absurd h.symm (by decide)
    · exact absurd h.symm (by decide)
    · exact absurd h.symm (by decide)
    · exact absurd h.symm (by decide)
    · exact absurd h.symm (by decide)
    · exact absurd h.symm (by decide)
    · exact (ht _ h).2.2.1 rfl
  unfold pyUrlparse
  rw [pyUrlsplit_wiki netloc T hn ht2]
  dsimp only []
  rw [if_neg hsemi]

theorem extract_title_wiki (netloc T : List Char)
    (hdom : wikiDomain <:+: netloc)
    (hn : ∀ c ∈ netloc, isNetlocDelim c = false ∧ c ≠ '[' ∧ c ≠ ']' ∧
      c ≠ '\t' ∧ c ≠ '\r' ∧ c ≠ '\n')
    (ht : ∀ c ∈ T, c ≠ '/' ∧ c ≠ '#' ∧ c ≠ '?' ∧ c ≠ ';' ∧
      c ≠ '\t' ∧ c ≠ '\r' ∧ c ≠ '\n') :
    _extract_title_from_wiki_url (String.mk ('h' :: 't' :: 't' :: 'p' :: 's' ::
        ':' :: '/' :: '/' :: (netloc ++ '/' :: 'w' :: 'i' :: 'k' :: 'i' :: '/' :: T))) =
      some (String.mk (unquoteList T)) := by
  have ht2 : ∀ c ∈ T, c ≠ '#' ∧ c ≠ '?' ∧ c ≠ ';' ∧ c ≠ '\t' ∧ c ≠ '\r' ∧ c ≠ '\n' := by
    intro c hc
    obtain ⟨-, h2, h3, h4, h5, h6, h7⟩ := ht c hc
    exact ⟨h2, h3, h4, h5, h6, h7⟩
  have hsplit : splitOnChar '/' ('/' :: 'w' :: 'i' :: 'k' :: 'i' :: '/' :: T) =
      [[], 'w' :: 'i' :: 'k' :: 'i' :: [], T] := by
    have h2 : splitOnChar '/' (('w' :: 'i' :: 'k' :: 'i' :: []) ++ '/' :: T) =
        ('w' :: 'i' :: 'k' :: 'i' :: []) :: splitOnChar '/' T :=
      splitOnChar_app_sep '/' _ T (by decide)
    have h3 : splitOnChar '/' T = [T] :=
      splitOnChar_of_not_mem '/' T (fun c hc => (ht c hc).1)
    have h1 := splitOnChar_cons_sep '/'
      (('w' :: 'i' :: 'k' :: 'i' :: []) ++ '/' :: T)
    rw [h2, h3] at h1
    exact h1
  unfold _extract_title_from_wiki_url
  rw [show (String.mk ('h' :: 't' :: 't' :: 'p' :: 's' :: ':' :: '/' :: '/' ::
      (netloc ++ '/' :: 'w' :: 'i' :: 'k' :: 'i' :: '/' :: T))).data =
      'h' :: 't' :: 't' :: 'p' :: 's' :: ':' :: '/' :: '/' ::
      (netloc ++ '/' :: 'w' :: 'i' :: 'k' :: 'i' :: '/' :: T) from rfl]
  rw [pyUrlparse_wiki netloc T hn ht2]
  dsimp only []
  rw [if_pos hdom]
  rw [hsplit]
  dsimp only []
  rw [if_pos (show ('w' :: 'i' :: 'k' :: 'i' :: [] : List Char) = "wiki".data from rfl)]

theorem hexVal_hexDigitUpper (n : Nat) (h : n < 16) :
    hexVal (hexDigitUpper n) = some n := by
  interval_cases n <;> decide

theorem hexDigitUpper_alnum (n : Nat) (h : n < 16) :
    (hexDigitUpper n).isAlphanum = true := by
  interval_cases n <;> decide

theorem safe_ne_pct (c : Char) (h : safeChar c = true) : c ≠ '%' := by
  intro heq
  subst heq
  exact absurd h (by decide)

theorem tokenize_cons_ne_pct (c : Char) (r : List Char) (hc : c ≠ '%') :
    tokenize (c :: r) = Sum.inr c :: tokenize r := by
  rcases r with - | ⟨h1, - | ⟨h2, rest⟩⟩ <;> simp [tokenize, hc]

theorem tokenize_escByte (b : Nat) (hb : b < 256) (r : List Char) :
    tokenize (escByte b ++ r) = Sum.inl b :: tokenize r := by
  have h1 : hexVal (hexDigitUpper (b / 16)) = some (b / 16) :=
    hexVal_hexDigitUpper _ (by omega)
  have h2 : hexVal (hexDigitUpper (b % 16)) = some (b % 16) :=
    hexVal_hexDigitUpper _ (by omega)
  have hv : b / 16 * 16 + b % 16 = b := by omega
  simp [escByte, tokenize, h1, h2, hv]

theorem tokenize_escBytes (bs : List Nat) (hb : ∀ b ∈ bs, b < 256) (r : List Char) :
    tokenize (bs.flatMap escByte ++ r) = bs.map Sum.inl ++ tokenize r := by
  induction bs with
  | nil => simp
  | cons b t ih =>
    have hblt : b < 256 := hb b (by simp)
    have iht := ih (fun x hx => hb x (by simp [hx]))
    simp only [List.flatMap_cons, List.append_assoc, List.map_cons, List.cons_append]
    rw [tokenize_escByte b hblt, iht]

theorem detok_inr (c : Char) (rest : List (Nat ⊕ Char)) :
    detok (Sum.inr c :: rest) = c :: detok rest := rfl

theorem detok_byte1 (a : Nat) (rest : List (Nat ⊕ Char)) (h1 : a < 0x80) :
    detok (Sum.inl a :: rest) = Char.ofNat a :: detok rest := by
  rcases rest with - | ⟨b2 | c2, rest2⟩
  · simp [detok, h1]
  · rcases rest2 with - | ⟨b3 | c3, rest3⟩
    · simp [detok, h1]
    · rcases rest3 with - | ⟨b4 | c4, rest4⟩
      · simp [detok, h1]
      · simp [detok, h1]
      · simp [detok, h1]
    · simp [detok, h1]
  · simp [detok, h1]

theorem detok_byte2 (a b : Nat) (rest : List (Nat ⊕ Char))
    (h1 : 0xC0 ≤ a) (h2 : a < 0xE0) :
    detok (Sum.inl a :: Sum.inl b :: rest) =
      Char.ofNat ((a - 0xC0) * 0x40 + (b - 0x80)) :: detok rest := by
  have n1 : ¬ a < 0x80 := by omega
  have n2 : ¬ a < 0xC0 := by omega
  rcases rest with - | ⟨b3 | c3, rest3⟩
  · simp [detok, n1, n2, h2]
  · rcases rest3 with - | ⟨b4 | c4, rest4⟩
    · simp [detok, n1, n2, h2]
    · simp [detok, n1, n2, h2]
    · simp [detok, n1, n2, h2]
  · simp [detok, n1, n2, h2]

theorem detok_byte3 (a b c : Nat) (rest : List (Nat ⊕ Char))
    (h1 : 0xE0 ≤ a) (h2 : a < 0xF0) :
    detok (Sum.inl a :: Sum.inl b :: Sum.inl c :: rest) =
      Char.ofNat ((a - 0xE0) * 0x1000 + (b - 0x80) * 0x40 + (c - 0x80)) ::
        detok rest := by
  have n1 : ¬ a < 0x80 := by omega
  have n2 : ¬ a < 0xC0 := by omega
  have n3 : ¬ a < 0xE0 := by omega
  rcases rest with - | ⟨b4 | c4, rest4⟩
  · simp [detok, n1, n2, n3, h2]
  · simp [detok, n1, n2, n3, h2]
  · simp [detok, n1, n2, n3, h2]

theorem detok_byte4 (a b c d : Nat) (rest : List (Nat ⊕ Char)) (h1 : 0xF0 ≤ a) :
    detok (Sum.inl a :: Sum.inl b :: Sum.inl c :: Sum.inl d :: rest) =
      Char.ofNat ((a - 0xF0) * 0x40000 + (b - 0x80) * 0x1000 +
        (c - 0x80) * 0x40 + (d - 0x80)) :: detok rest := by
  have n1 : ¬ a < 0x80 := by omega
  have n2 : ¬ a < 0xC0 := by omega
  have n3 : ¬ a < 0xE0 := by omega
  have n4 : ¬ a < 0xF0 := by omega
  simp [detok, n1, n2, n3, n4]

theorem detok_utf8 (n : Nat) (h : n < 0x110000) (rest : List (Nat ⊕ Char)) :
    detok ((utf8EncodeCp n).map Sum.inl ++ rest) = Char.ofNat n :: detok rest := by
  by_cases h1 : n < 0x80
  · have e : utf8EncodeCp n = [n] := by simp [utf8EncodeCp, h1]
    rw [e]
    simp only [List.map_cons, List.map_nil, List.cons_append, List.nil_append]
    rw [detok_byte1 n rest h1]
  · by_cases h2 : n < 0x800
    · have e : utf8EncodeCp n = [0xC0 + n / 0x40, 0x80 + n % 0x40] := by
        simp [utf8EncodeCp, h1, h2]
      rw [e]
      simp only [List.map_cons, List.map_nil, List.cons_append, List.nil_append]
      rw [detok_byte2 _ _ rest (by omega) (by omega)]
      have hv : (0xC0 + n / 0x40 - 0xC0) * 0x40 + (0x80 + n % 0x40 - 0x80) = n := by
        omega
      rw [hv]
    · by_cases h3 : n < 0x10000
      · have e : utf8EncodeCp n =
            [0xE0 + n / 0x1000, 0x80 + (n / 0x40) % 0x40, 0x80 + n % 0x40] := by
          simp [utf8EncodeCp, h1, h2, h3]
        rw [e]
        simp only [List.map_cons, List.map_nil, List.cons_append, List.nil_append]
        rw [detok_byte3 _ _ _ rest (by omega) (by omega)]
        have hv : (0xE0 + n / 0x1000 - 0xE0) * 0x1000 +
            (0x80 + (n / 0x40) % 0x40 - 0x80) * 0x40 + (0x80 + n % 0x40 - 0x80) = n := by
          omega
        rw [hv]
      · have e : utf8EncodeCp n =
            [0xF0 + n / 0x40000, 0x80 + (n / 0x1000) % 0x40,
              0x80 + (n / 0x40) % 0x40, 0x80 + n % 0x40] := by
          simp [utf8EncodeCp, h1, h2, h3]
        rw [e]
        simp only [List.map_cons, List.map_nil, List.cons_append, List.nil_append]
        rw [detok_byte4 _ _ _ _ rest (by omega)]
        have hv : (0xF0 + n / 0x40000 - 0xF0) * 0x40000 +
            (0x80 + (n / 0x1000) % 0x40 - 0x80) * 0x1000 +
            (0x80 + (n / 0x40) % 0x40 - 0x80) * 0x40 + (0x80 + n % 0x40 - 0x80) = n := by
          omega
        rw [hv]

theorem unquote_quote (l : List Char) : unquoteList (quoteList l) = l := by
  unfold unquoteList
  induction l with
  | nil => rfl
  | cons c cs ih =>
    by_cases hs : safeChar c
    · have hq : quoteList (c :: cs) = c :: quoteList cs := by
        simp [quoteList, quoteChar, hs]
      rw [hq, tokenize_cons_ne_pct c _ (safe_ne_pct c hs), detok_inr, ih]
    · have hq : quoteList (c :: cs) =
          (utf8EncodeCp c.toNat).flatMap escByte ++ quoteList cs := by
        simp [quoteList, quoteChar, hs]
      rw [hq, tokenize_escBytes _ (utf8EncodeCp_lt _ (char_toNat_lt c)) _,
        detok_utf8 _ (char_toNat_lt c), Char.ofNat_toNat, ih]

theorem mem_quoteList (l : List Char) (c : Char) (hc : c ∈ quoteList l) :
    (c ∈ l ∧ safeChar c = true) ∨ c = '%' ∨ ∃ n, n < 16 ∧ c = hexDigitUpper n := by
  simp only [quoteList, List.mem_flatMap] at hc
  obtain ⟨d, hd, hcd⟩ := hc
  unfold quoteChar at hcd
  by_cases hs : safeChar d
  · rw [if_pos hs] at hcd
    simp at hcd
    subst hcd
    exact .inl ⟨hd, hs⟩
  · rw [if_neg hs] at hcd
    simp only [List.mem_flatMap] at hcd
    obtain ⟨b, hb, hcb⟩ := hcd
    have hblt : b < 256 := utf8EncodeCp_lt d.toNat (char_toNat_lt d) b hb
    unfold escByte at hcb
    simp at hcb
    rcases hcb with hcb | hcb | hcb
    · exact .inr (.inl hcb)
    · exact .inr (.inr ⟨b / 16, by omega, hcb⟩)
    · exact .inr (.inr ⟨b % 16, by omega, hcb⟩)

theorem quoteList_not_mem (l : List Char) (x : Char)
    (hx1 : safeChar x = false ∨ x ∉ l) (hx2 : x ≠ '%')
    (hx3 : x.isAlphanum = false) : x ∉ quoteList l := by
  intro hc
  rcases mem_quoteList l x hc with ⟨hm, hs⟩ | h | ⟨n, hn, he⟩
  · rcases hx1 with h1 | h1
    · simp [hs] at h1
    · exact h1 hm
  · exact hx2 h
  · rw [he] at hx3
    rw [hexDigitUpper_alnum n hn] at hx3
    cases hx3

theorem tokenize_ne_nil (l : List Char) (h : l ≠ []) : tokenize l ≠ [] := by
  rcases l with - | ⟨c, - | ⟨d, - | ⟨e, rest⟩⟩⟩
  · exact absurd rfl h
  · simp [tokenize]
  · by_cases hc : c = '%'
    · subst hc
      simp [tokenize]
    · rw [tokenize_cons_ne_pct c _ hc]
      simp
  · by_cases hc : c = '%'
    · subst hc
      rcases hv1 : hexVal d with - | a <;> rcases hv2 : hexVal e with - | b <;>
        simp [tokenize, hv1, hv2]
    · rw [tokenize_cons_ne_pct c _ hc]
      simp

theorem detok_ne_nil (t : List (Nat ⊕ Char)) (h : t ≠ []) : detok t ≠ [] := by
  rcases t with - | ⟨b1 | c1, t1⟩
  · exact absurd rfl h
  · rcases t1 with - | ⟨b2 | c2, t2⟩
    · simp only [detok]
      repeat' split
      all_goals simp
    · rcases t2 with - | ⟨b3 | c3, t3⟩
      · simp only [detok]
        repeat' split
        all_goals simp
      · rcases t3 with - | ⟨b4 | c4, t4⟩
        · simp only [detok]
          repeat' split
          all_goals simp
        · simp only [detok]
          repeat' split
          all_goals simp
        · simp only [detok]
          repeat' split
          all_goals simp
      · simp only [detok]
        repeat' split
        all_goals simp
    · simp only [detok]
      repeat' split
      all_goals simp
  · simp [detok]

theorem unquoteList_ne_nil (l : List Char) (h : l ≠ []) : unquoteList l ≠ [] :=
  detok_ne_nil _ (tokenize_ne_nil l h)

theorem scrape_attempts_plain (env : ScrapeEnv) (url title : String)
    (ht : _extract_title_from_wiki_url url = some title) (hne : title ≠ "") :
    Tier.plain ∈ (scrape_wikipedia_content env url).2 := by
  have hne2 : ¬(title = "") := hne
  unfold scrape_wikipedia_content
  simp only [ht, hne2, if_false]
  cases hp : _wiki_rest_plain_text (env.plainResp title) with
  | error e =>
    simp only [hp]
    cases hm : env.mobileResult title with
    | error e2 => cases hg : env.genericResult url <;> simp [hm, hg]
    | ok o =>
      cases o with
      | none => cases hg : env.genericResult url <;> simp [hm, hg]
      | some txt =>
        by_cases htxt : txt = ""
        · cases hg : env.genericResult url <;> simp [hm, htxt, hg]
        · simp [hm, htxt]
  | ok o =>
    cases o with
    | none =>
      simp only [hp]
      cases hm : env.mobileResult title with
      | error e2 => cases hg : env.genericResult url <;> simp [hm, hg]
      | ok o2 =>
        cases o2 with
        | none => cases hg : env.genericResult url <;> simp [hm, hg]
        | some txt =>
          by_cases htxt : txt = ""
          · cases hg : env.genericResult url <;> simp [hm, htxt, hg]
          · simp [hm, htxt]
    | some txt =>
      by_cases htxt : txt = ""
      · simp only [hp, htxt, if_true]
        cases hm : env.mobileResult title with
        | error e2 => cases hg : env.genericResult url <;> simp [hm, hg]
        | ok o2 =>
          cases o2 with
          | none => cases hg : env.genericResult url <;> simp [hm, hg]
          | some txt2 =>
            by_cases htxt2 : txt2 = ""
            · cases hg : env.genericResult url <;> simp [hm, htxt2, hg]
            · simp [hm, htxt2]
      · simp [hp, htxt]

/-! ### Claim theorems -/

/-- Environment used by the witness of C1. -/
def envA : ScrapeEnv :=
  ⟨fun _ => .ok (200, "Plain text"), fun _ => .ok none, fun _ => .ok none⟩

/-- C1: when a title is extracted from the URL and the plain-text REST tier
returns a 200 response whose body is nonempty after stripping, the scraper
returns that body verbatim and invokes neither the mobile-HTML tier nor the
generic-scrape tier. -/
theorem scrape_plain_tier_short_circuit (env : ScrapeEnv) (url title body : String)
    (ht : _extract_title_from_wiki_url url = some title) (hne : title ≠ "")
    (hp : env.plainResp title = .ok (200, body))
    (hb : pyStrip body.data ≠ []) :
    scrape_wikipedia_content env url = (some body, [Tier.plain]) ∧
    Tier.mobile ∉ (scrape_wikipedia_content env url).2 ∧
    Tier.generic ∉ (scrape_wikipedia_content env url).2 := by
  have hbody : body ≠ "" := by
    intro h
    subst h
    simp [pyStrip] at hb
  have h1 : scrape_wikipedia_content env url = (some body, [Tier.plain]) := by
    unfold scrape_wikipedia_content
    simp only [ht, hne, if_false, hp, _wiki_rest_plain_text]
    simp [hne, hb, hbody]
  refine ⟨h1, ?_, ?_⟩ <;> simp [h1]

/-- Witness for C1 at a concrete URL and environment. -/
theorem scrape_plain_tier_short_circuit_witness :
    scrape_wikipedia_content envA "https://en.wikipedia.org/wiki/Ada_Lovelace" =
      (some "Plain text", [Tier.plain]) ∧
    Tier.mobile ∉ (scrape_wikipedia_content envA "https://en.wikipedia.org/wiki/Ada_Lovelace").2 ∧
    Tier.generic ∉ (scrape_wikipedia_content envA "https://en.wikipedia.org/wiki/Ada_Lovelace").2 :=
  scrape_plain_tier_short_circuit envA "https://en.wikipedia.org/wiki/Ada_Lovelace"
    "Ada_Lovelace" "Plain text" (by decide) (by decide) rfl (by decide)

/-- Environment used by the witness of C2. -/
def envB : ScrapeEnv :=
  ⟨fun _ => .ok (200, "x"), fun _ => .ok none, fun _ => .ok (some "Generic")⟩

/-- C2: when title extraction fails, the scraper invokes only the
generic-scrape tier — neither REST tier is attempted. -/
theorem scrape_nonwiki_generic_only (env : ScrapeEnv) (url : String)
    (h : _extract_title_from_wiki_url url = none) :
    (scrape_wikipedia_content env url).2 = [Tier.generic] := by
  unfold scrape_wikipedia_content
  simp only [h]
  cases env.genericResult url <;> simp

/-- Witness for C2 at a concrete non-reference URL. -/
theorem scrape_nonwiki_generic_only_witness :
    (scrape_wikipedia_content envB "https://example.com/page").2 = [Tier.generic] :=
  scrape_nonwiki_generic_only envB "https://example.com/page" (by decide)

/-- C4: no stage lets a collaborator failure escape: the scraper maps a
raised generic-tier exception to `None` whenever that tier runs, claim
extraction maps a raised gateway call or an unparsable response to the
empty list, claim optimization maps a raised call to the original claim,
search maps a raised call to `None`, and judging maps a raised call to
`None`. -/
theorem stage_no_raise_totality :
    (∀ (env : ScrapeEnv) (url : String), env.genericResult url = .error () →
      Tier.generic ∈ (scrape_wikipedia_content env url).2 →
      (scrape_wikipedia_content env url).1 = none) ∧
    (∀ parse, extract_claims_from_query (.error ()) parse = []) ∧
    (∀ parse raw, raw ≠ "" → parse raw = none →
      extract_claims_from_query (.ok (some raw)) parse = []) ∧
    (∀ c, optimize_claim (.error ()) c = c) ∧
    (∀ n, get_first_n_results_urls (.error ()) n = none) ∧
    (∀ parse, find_answer_in_article (.error ()) parse = none) := by
  refine ⟨?_, fun _ => rfl, ?_, fun _ => rfl, fun _ => rfl, fun _ => rfl⟩
  · intro env url hg hmem
    unfold scrape_wikipedia_content at hmem ⊢
    cases hx : _extract_title_from_wiki_url url with
    | none => simp [hx, hg]
    | some title =>
      by_cases ht : title = ""
      · simp [hx, ht, hg]
      · simp only [hx, ht, if_false] at hmem ⊢
        cases hp : _wiki_rest_plain_text (env.plainResp title) with
        | error e =>
          simp only [hp] at hmem ⊢
          cases hm : env.mobileResult title with
          | error e2 => simp [hm, hg]
          | ok o =>
            cases o with
            | none => simp [hm, hg]
            | some txt =>
              by_cases htxt : txt = "" <;> simp [hm, htxt, hg] <;>
                simp [hm, htxt, hg] at hmem
        | ok o =>
          cases o with
          | none =>
            simp only [hp] at hmem ⊢
            cases hm : env.mobileResult title with
            | error e2 => simp [hm, hg]
            | ok o2 =>
              cases o2 with
              | none => simp [hm, hg]
              | some txt =>
                by_cases htxt : txt = "" <;> simp [hm, htxt, hg] <;>
                  simp [hm, htxt, hg] at hmem
          | some txt =>
            by_cases htxt : txt = ""
            · simp only [hp, htxt, if_true] at hmem ⊢
              cases hm : env.mobileResult title with
              | error e2 => simp [hm, hg]
              | ok o2 =>
                cases o2 with
                | none => simp [hm, hg]
                | some txt2 =>
                  by_cases htxt2 : txt2 = "" <;> simp [hm, htxt2, hg] <;>
                    simp [hm, htxt2, hg] at hmem
            · simp [hp, htxt] at hmem
  · intro parse raw hraw hparse
    simp [extract_claims_from_query, hraw, hparse]

/-- Witness for C4 at concrete inputs. -/
theorem stage_no_raise_totality_witness :
    (scrape_wikipedia_content ⟨fun _ => .ok (200, "x"), fun _ => .ok none,
        fun _ => .error ()⟩ "https://example.com/page").1 = none ∧
    extract_claims_from_query (.ok (some "not json")) (fun _ => none) = [] := by
  constructor
  · exact stage_no_raise_totality.1 _ "https://example.com/page" rfl (by decide)
  · exact stage_no_raise_totality.2.2.1 (fun _ => none) "not json" (by decide) rfl

/-- C5 counterexample: a judging response that is not a valid JSON verdict
does not leave the verdict absent — the code attaches a fallback verdict
labelled False wrapping the raw text. -/
theorem judge_unparsable_attaches_fallback :
    find_answer_in_article (Except.ok (some "not json")) (fun _ => none) =
      some ⟨"False", "not json"⟩ ∧
    find_answer_in_article (Except.ok (some "not json")) (fun _ => none) ≠ none := by
  constructor <;> decide

/-- C5 (amended): a raised judging call or an absent/empty response leaves
the verdict absent; a nonempty response that fails strict JSON validation
yields a fallback verdict with label False and the raw text as evidence;
with an absent verdict the produced link is the bare source URL. -/
theorem judge_failure_verdict_policy :
    (∀ parse, find_answer_in_article (Except.error ()) parse = none) ∧
    (∀ parse, find_answer_in_article (Except.ok none) parse = none) ∧
    (∀ parse, find_answer_in_article (Except.ok (some "")) parse = none) ∧
    (∀ parse text, text ≠ "" → parse text = none →
      find_answer_in_article (Except.ok (some text)) parse = some ⟨"False", text⟩) ∧
    (∀ url, build_text_fragment_link url none = url) := by
  refine ⟨fun _ => rfl, fun _ => rfl, fun _ => rfl, ?_, fun _ => rfl⟩
  intro parse text h hp
  simp [find_answer_in_article, h, hp]

/-- Witness for C5's amended theorem at a concrete unparsable response. -/
theorem judge_failure_verdict_policy_witness :
    find_answer_in_article (Except.ok (some "garbage")) (fun _ => none) =
      some ⟨"False", "garbage"⟩ :=
  judge_failure_verdict_policy.2.2.2.1 (fun _ => none) "garbage" (by decide) rfl

/-- C6 counterexample: a gateway call that succeeds but yields no output
text makes `optimize_claim` return the empty string, not the original
claim. -/
theorem optimize_empty_output_cex :
    optimize_claim (Except.ok none) "hello" = "" ∧ ("" : String) ≠ "hello" := by
  constructor
  · rfl
  · decide

/-- C6 (amended): `optimize_claim` in `claims.py` returns the original
claim only when the gateway call raises; when the call succeeds with
absent or empty output text it returns the empty string.  The local-model
variant returns the original claim in both failure modes.  Neither
raises. -/
theorem optimize_claim_fallback_policy :
    (∀ c, optimize_claim (Except.error ()) c = c) ∧
    (∀ c, optimize_claim (Except.ok none) c = "") ∧
    (∀ c, optimize_claim (Except.ok (some "")) c = "") ∧
    (∀ c, local_optimize_claim none c = c) ∧
    (∀ c, local_optimize_claim (some "") c = c) :=
  ⟨fun _ => rfl, fun _ => rfl, fun _ => rfl, fun _ => rfl, fun _ => rfl⟩

/-- C7: for nonempty evidence the link is the URL plus the text-fragment
anchor with the percent-encoded evidence, whose characters are all either
in the safe set or part of a `%XX` escape; for absent evidence the link is
the bare URL. -/
theorem build_link_encodes_evidence (url ev : String) (h : ev ≠ "") :
    build_text_fragment_link url (some ev) = url ++ "#:~:text=" ++ pyQuote ev ∧
    (∀ c ∈ (pyQuote ev).data, safeChar c = true ∨ c = '%') ∧
    build_text_fragment_link url none = url := by
  refine ⟨by simp [build_text_fragment_link, h], ?_, rfl⟩
  intro c hc
  exact quoteList_chars_safe ev.data c hc

/-- Witness for C7 at concrete URL and evidence containing characters that
need encoding. -/
theorem build_link_encodes_evidence_witness :
    build_text_fragment_link "https://x.org/p" (some "a b/c") =
      "https://x.org/p" ++ "#:~:text=" ++ pyQuote "a b/c" ∧
    (∀ c ∈ (pyQuote "a b/c").data, safeChar c = true ∨ c = '%') ∧
    build_text_fragment_link "https://x.org/p" none = "https://x.org/p" :=
  build_link_encodes_evidence "https://x.org/p" "a b/c" (by decide)

/-- C8: for every collaborator outcome and every requested count of at
least one, search returns either `None` or a list of at most `n` URLs that
is a prefix of the collaborator's ranked links. -/
theorem search_results_truncated (resp : Except Unit (List (Option String)))
    (n : Nat) (hn : 1 ≤ n) :
    get_first_n_results_urls resp n = none ∨
    ∃ items l, resp = Except.ok items ∧
      get_first_n_results_urls resp n = some l ∧
      l.length ≤ n ∧ l <+: items.filterMap id := by
  cases resp with
  | error e => exact .inl rfl
  | ok items =>
    by_cases h : items.filterMap id = []
    · left
      simp [get_first_n_results_urls, h]
    · right
      refine ⟨items, (items.filterMap id).take n, rfl, ?_, ?_, ?_⟩
      · simp [get_first_n_results_urls, h]
      · simpa using List.length_take_le n (items.filterMap id)
      · exact ⟨(items.filterMap id).drop n, List.take_append_drop n _⟩

/-- Witness for C8 at a concrete search outcome. -/
theorem search_results_truncated_witness :
    get_first_n_results_urls (Except.ok [some "u1", none, some "u2"]) 1 = none ∨
    ∃ items l, (Except.ok [some "u1", none, some "u2"] :
        Except Unit (List (Option String))) = Except.ok items ∧
      get_first_n_results_urls (Except.ok [some "u1", none, some "u2"]) 1 = some l ∧
      l.length ≤ 1 ∧ l <+: items.filterMap id :=
  search_results_truncated (Except.ok [some "u1", none, some "u2"]) 1 (by decide)

/-- Worker used by the C9 counterexample: processing claim `b` raises. -/
def workerC9 : String → Except Unit String := fun c =>
  if c = "b" then .error () else .ok (c ++ "!")

/-- C9 counterexample: with two claims of which one raises, the parallel
orchestrator yields a single result — the failing claim's result is
dropped (only logged), not reported with an error marker, so the batch
does not produce exactly N results. -/
theorem parallel_drops_failed_claim_cex :
    parallelResults workerC9 ["a", "b"] = ["a!"] ∧
    (parallelResults workerC9 ["a", "b"]).length ≠ 2 := by
  constructor <;> decide

/-- C9 (amended): with no worker failure the parallel orchestrator yields
exactly N results forming a permutation of sequential mode's results; a
raised worker never crashes the batch but its claim contributes no result
(it is logged and dropped), while every non-raising claim's result is
still collected. -/
theorem parallel_batch_collection_spec {R : Type} (worker : String → Except Unit R)
    (claims order : List String) (hperm : order.Perm claims) :
    ((∀ c ∈ claims, ∃ r, worker c = .ok r) →
      ∃ seq, sequentialResults worker claims = Except.ok seq ∧
        (parallelResults worker order).Perm seq ∧
        (parallelResults worker order).length = claims.length) ∧
    (parallelResults worker order).length =
      (order.filter (fun c => (worker c).toOption.isSome)).length := by
  constructor
  · intro hok
    refine ⟨claims.filterMap fun c => (worker c).toOption,
      sequentialResults_all_ok worker claims hok, ?_, ?_⟩
    · rw [parallelResults_eq_filterMap]
      exact hperm.filterMap _
    · rw [parallelResults_eq_filterMap,
        length_filterMap_eq_length_filter _ order]
      have hall : order.filter (fun c => (worker c).toOption.isSome) = order := by
        refine List.filter_eq_self.mpr fun c hc => ?_
        obtain ⟨r, hr⟩ := hok c (hperm.mem_iff.mp hc)
        simp [hr, Except.toOption]
      rw [hall, hperm.length_eq]
  · rw [parallelResults_eq_filterMap]
    exact length_filterMap_eq_length_filter _ order

/-- Worker used by the C9 witness: every claim succeeds. -/
def workerOk : String → Except Unit String := fun c => .ok c

/-- Witness for C9's amended theorem at a concrete claim list and
completion order. -/
theorem parallel_batch_collection_spec_witness :
    (∃ seq, sequentialResults workerOk ["x", "y"] = Except.ok seq ∧
      (parallelResults workerOk ["y", "x"]).Perm seq ∧
      (parallelResults workerOk ["y", "x"]).length = (["x", "y"] : List String).length) ∧
    (parallelResults workerOk ["y", "x"]).length =
      ((["y", "x"] : List String).filter
        (fun c => (workerOk c).toOption.isSome)).length := by
  have h := parallel_batch_collection_spec workerOk ["x", "y"] ["y", "x"] (by decide)
  exact ⟨h.1 (fun c _ => ⟨c, rfl⟩), h.2⟩

/-- C3 counterexample: `quote` leaves `/` raw (it is in the default safe
set), and extraction splits the path on `/`, so a title containing a slash
does not round-trip: building the URL for title `a/b` and extracting
yields `a`. -/
theorem wiki_title_roundtrip_cex :
    _extract_title_from_wiki_url ("https://en.wikipedia.org/wiki/" ++ pyQuote "a/b") =
      some "a" ∧
    pyQuote "a/b" = "a/b" ∧ ("a" : String) ≠ "a/b" := by
  refine ⟨by decide, by decide, by decide⟩

/-- C3 (amended): for every title containing no `/` character,
percent-encoding it, building the reference-encyclopedia URL, and
extracting recovers the original title. -/
theorem wiki_title_roundtrip_no_slash (title : String) (h : '/' ∉ title.data) :
    _extract_title_from_wiki_url ("https://en.wikipedia.org/wiki/" ++ pyQuote title) =
      some title := by
  have ht : ∀ c ∈ quoteList title.data, c ≠ '/' ∧ c ≠ '#' ∧ c ≠ '?' ∧ c ≠ ';' ∧
      c ≠ '\t' ∧ c ≠ '\r' ∧ c ≠ '\n' := by
    intro c hc
    exact ⟨fun he => quoteList_not_mem _ '/' (Or.inr h) (by decide) (by decide) (he ▸ hc),
      fun he => quoteList_not_mem _ '#' (Or.inl (by decide)) (by decide) (by decide) (he ▸ hc),
      fun he => quoteList_not_mem _ '?' (Or.inl (by decide)) (by decide) (by decide) (he ▸ hc),
      fun he => quoteList_not_mem _ ';' (Or.inl (by decide)) (by decide) (by decide) (he ▸ hc),
      fun he => quoteList_not_mem _ '\t' (Or.inl (by decide)) (by decide) (by decide) (he ▸ hc),
      fun he => quoteList_not_mem _ '\r' (Or.inl (by decide)) (by decide) (by decide) (he ▸ hc),
      fun he => quoteList_not_mem _ '\n' (Or.inl (by decide)) (by decide) (by decide) (he ▸ hc)⟩
  have he : ("https://en.wikipedia.org/wiki/" ++ pyQuote title) =
      String.mk ('h' :: 't' :: 't' :: 'p' :: 's' :: ':' :: '/' :: '/' ::
        ("en.wikipedia.org".data ++ '/' :: 'w' :: 'i' :: 'k' :: 'i' :: '/' ::
          quoteList title.data)) := rfl
  rw [he, extract_title_wiki "en.wikipedia.org".data (quoteList title.data)
    (by decide) (by decide) ht]
  rw [unquote_quote]

/-- Witness for C3's amended theorem at a concrete title with characters
needing percent-encoding. -/
theorem wiki_title_roundtrip_no_slash_witness :
    _extract_title_from_wiki_url
        ("https://en.wikipedia.org/wiki/" ++ pyQuote "Ada Lovelace (1815)") =
      some "Ada Lovelace (1815)" :=
  wiki_title_roundtrip_no_slash "Ada Lovelace (1815)" (by decide)

/-- Environment used by the witness of C10. -/
def envC : ScrapeEnv :=
  ⟨fun _ => .ok (200, "Body"), fun _ => .ok none, fun _ => .ok none⟩

/-- C10: the reference-domain test is a substring check on the netloc —
for every netloc merely containing `wikipedia.org` (such as
`fakewikipedia.org`) and every nonempty title, extraction on
`https://<netloc>/wiki/<title>` succeeds with the percent-decoded title,
and retrieval therefore attempts the Wikipedia plain-text REST tier. -/
theorem netloc_substring_check_rest_attempted (netloc T : List Char)
    (env : ScrapeEnv)
    (hdom : wikiDomain <:+: netloc)
    (hn : ∀ c ∈ netloc, isNetlocDelim c = false ∧ c ≠ '[' ∧ c ≠ ']' ∧
      c ≠ '\t' ∧ c ≠ '\r' ∧ c ≠ '\n')
    (ht : ∀ c ∈ T, c ≠ '/' ∧ c ≠ '#' ∧ c ≠ '?' ∧ c ≠ ';' ∧
      c ≠ '\t' ∧ c ≠ '\r' ∧ c ≠ '\n')
    (hT : T ≠ []) :
    _extract_title_from_wiki_url (String.mk ('h' :: 't' :: 't' :: 'p' :: 's' ::
        ':' :: '/' :: '/' :: (netloc ++ '/' :: 'w' :: 'i' :: 'k' :: 'i' :: '/' :: T))) =
      some (String.mk (unquoteList T)) ∧
    Tier.plain ∈ (scrape_wikipedia_content env (String.mk ('h' :: 't' :: 't' :: 'p' ::
      's' :: ':' :: '/' :: '/' :: (netloc ++ '/' :: 'w' :: 'i' :: 'k' :: 'i' :: '/' :: T)))).2 := by
  have hx := extract_title_wiki netloc T hdom hn ht
  refine ⟨hx, scrape_attempts_plain env _ _ hx ?_⟩
  intro hemp
  exact unquoteList_ne_nil T hT (congrArg String.data hemp)

/-- Witness for C10 at the foreign host `fakewikipedia.org`. -/
theorem netloc_substring_check_rest_attempted_witness :
    _extract_title_from_wiki_url (String.mk ('h' :: 't' :: 't' :: 'p' :: 's' ::
        ':' :: '/' :: '/' :: ("fakewikipedia.org".data ++ '/' :: 'w' :: 'i' :: 'k' ::
          'i' :: '/' :: "Ada_Lovelace".data))) =
      some (String.mk (unquoteList "Ada_Lovelace".data)) ∧
    Tier.plain ∈ (scrape_wikipedia_content envC (String.mk ('h' :: 't' :: 't' :: 'p' ::
      's' :: ':' :: '/' :: '/' :: ("fakewikipedia.org".data ++ '/' :: 'w' :: 'i' :: 'k' ::
        'i' :: '/' :: "Ada_Lovelace".data)))).2 :=
  netloc_substring_check_rest_attempted "fakewikipedia.org".data "Ada_Lovelace".data
    envC (by decide) (by decide) (by decide) (by decide)

end TruthMachine

